import Mathlib

/-!
Verification of the secure-box cryptographic core, `src/lib/crypto.ts`.

Shallow embedding conventions:
* byte buffers (`Uint8Array` / `ArrayBuffer`) are `List Nat`, one entry per
  byte; strings handled by `TextEncoder` / `TextDecoder` are represented by
  their UTF-8 byte sequences;
* the Web Crypto primitives (PBKDF2 key derivation via `deriveKey` and the
  AES-GCM AEAD cipher via `crypto.subtle.encrypt` / `crypto.subtle.decrypt`)
  are platform capabilities, not repository code; the embedding takes them
  as explicit function parameters, and theorems depending on their behaviour
  state the standard AEAD functional assumptions (round-trip under the same
  key, failure under a different key, failure on ciphertext shorter than the
  authentication tag) as hypotheses.  A concrete instance satisfying those
  assumptions (`toyDeriveKey`, `toyAeadEncrypt`, `toyAeadDecrypt`) is
  provided so that every theorem can be exercised on closed inputs;
* the fresh random salt and nonce obtained from `crypto.getRandomValues`
  are passed in as explicit arguments;
* the optional `onProgress` callback is modelled by recording, in order,
  the sequence of values the code passes to it during a successful call;
* thrown JavaScript errors become `Except.error` carrying the message.
-/

/-- A byte buffer: each entry is one byte value. -/
abbrev Bytes := List Nat

/-- `SALT_LENGTH` from the source. -/
def SALT_LENGTH : Nat := 16

/-- `IV_LENGTH` from the source. -/
def IV_LENGTH : Nat := 12

/-- `ITERATIONS` from the source: the PBKDF2 iteration count.  The key
derivation function itself is an abstract parameter of the embedding. -/
def ITERATIONS : Nat := 100000

/-- The bytes of `new Uint32Array([n])` on a little-endian platform
(JavaScript `ToUint32` wraps the value modulo `2 ^ 32`, and the four bytes
written here are exactly the little-endian bytes of `n % 2 ^ 32`). -/
def le32 (n : Nat) : Bytes :=
  [n % 256, n / 256 % 256, n / 65536 % 256, n / 16777216 % 256]

/-- Little-endian read of the first four bytes of a buffer, i.e.
`new Uint32Array(buf.slice(0, 4).buffer)[0]` (used by `decryptFile`). -/
def readLe32 (b : Bytes) : Nat :=
  b.getD 0 0 + b.getD 1 0 * 256 + b.getD 2 0 * 65536 + b.getD 3 0 * 16777216

/-- Lower-case hexadecimal digit `d` (for `0 ≤ d < 16`), as a byte. -/
def hexDigit (d : Nat) : Nat := if d < 10 then 48 + d else 87 + d

/-- `JSON.stringify` escaping of one byte of string content, at byte level:
byte 34 (double quote) and byte 92 (backslash) are escaped, the control
bytes below 32 use the two-character escapes where JSON defines them and
the six-character `u`-escape otherwise, and every other byte passes through
unchanged (non-ASCII UTF-8 bytes are left as-is, exactly as
`JSON.stringify` leaves non-ASCII characters unescaped). -/
def escapeByte (b : Nat) : Bytes :=
  if b = 34 then [92, 34]
  else if b = 92 then [92, 92]
  else if b = 8 then [92, 98]
  else if b = 9 then [92, 116]
  else if b = 10 then [92, 110]
  else if b = 12 then [92, 102]
  else if b = 13 then [92, 114]
  else if b < 32 then [92, 117, 48, 48, hexDigit (b / 16), hexDigit (b % 16)]
  else [b]

/-- The escaped content of a JSON string literal. -/
def bodyEnc (s : Bytes) : Bytes := s.flatMap escapeByte

/-- A JSON string literal: opening quote (byte 34), escaped content,
closing quote. -/
def jsonStringBytes (s : Bytes) : Bytes := 34 :: bodyEnc s ++ [34]

/-- The UTF-8 bytes of the four-character string `name`. -/
def nameKey : Bytes := [110, 97, 109, 101]

/-- The UTF-8 bytes of the four-character string `type`. -/
def typeKey : Bytes := [116, 121, 112, 101]

/-- The UTF-8 bytes of the metadata record built at crypto.ts lines 66-70:
`JSON.stringify` of an object whose `name` field holds the filename and
whose `type` field holds the MIME type, in that insertion order, with no
added whitespace.  Byte 123 is the opening brace, 58 the colon, 44 the
comma and 125 the closing brace. -/
def metadataJson (name ty : Bytes) : Bytes :=
  123 :: jsonStringBytes nameKey ++ 58 :: jsonStringBytes name ++
    44 :: jsonStringBytes typeKey ++ 58 :: jsonStringBytes ty ++ [125]

/-- The inner plaintext assembled at crypto.ts lines 71-79: a `Uint8Array`
holding the 4-byte little-endian metadata length, then the metadata record,
then the raw file bytes. -/
def dataToEncrypt (fileBytes name ty : Bytes) : Bytes :=
  le32 (metadataJson name ty).length ++ metadataJson name ty ++ fileBytes

/-- The observable output of `encryptFile`: the container bytes of the
returned `Blob`, its declared content type, and the values passed to the
optional `onProgress` callback, in source order. -/
structure EncryptOutput where
  container : Bytes
  blobType : String
  progress : List Nat
deriving DecidableEq

/-- `encryptFile` (crypto.ts lines 45-102).  `deriveKey` is the PBKDF2
derivation (lines 15-39) and `aeadEncrypt` the AES-GCM encryption
(`crypto.subtle.encrypt`), both platform capabilities taken as parameters;
`salt` and `iv` are the fresh random bytes from `crypto.getRandomValues`
(lines 52-53), passed in explicitly.  The result is
`salt || iv || ciphertext` (lines 92-97), returned as a Blob of type
`application/encrypted`; the progress callback is invoked with
10, 20, 30, 50, 70, 90, 100 in that order (lines 50-99). -/
def encryptFile {Key : Type} (deriveKey : Bytes → Bytes → Key)
    (aeadEncrypt : Key → Bytes → Bytes → Bytes)
    (salt iv : Bytes) (fileBytes name ty password : Bytes) : EncryptOutput :=
  let key := deriveKey password salt
  let encryptedData := aeadEncrypt key iv (dataToEncrypt fileBytes name ty)
  { container := salt ++ iv ++ encryptedData
    blobType := "application/encrypted"
    progress := [10, 20, 30, 50, 70, 90, 100] }

/-- JSON insignificant whitespace bytes: space, tab, line feed, carriage
return. -/
def isJsonWs (b : Nat) : Bool := b = 32 || b = 9 || b = 10 || b = 13

/-- Drop leading JSON whitespace. -/
def skipWs (l : Bytes) : Bytes := l.dropWhile isJsonWs

/-- Value of a hexadecimal digit byte (0-9, A-F, a-f). -/
def hexVal (b : Nat) : Option Nat :=
  if 48 ≤ b ∧ b ≤ 57 then some (b - 48)
  else if 65 ≤ b ∧ b ≤ 70 then some (b - 55)
  else if 97 ≤ b ∧ b ≤ 102 then some (b - 87)
  else none

/-- UTF-8 encoding of a code point below `2 ^ 16` (the range reachable from
a JSON `u`-escape). -/
def utf8Encode (c : Nat) : Bytes :=
  if c < 128 then [c]
  else if c < 2048 then [192 + c / 64, 128 + c % 64]
  else [224 + c / 4096, 128 + c / 64 % 64, 128 + c % 64]

/-- The byte denoted by a two-character JSON escape, if the second
character is one of the eight JSON defines. -/
def decodeEscape (e : Nat) : Option Nat :=
  if e = 34 then some 34
  else if e = 92 then some 92
  else if e = 47 then some 47
  else if e = 98 then some 8
  else if e = 102 then some 12
  else if e = 110 then some 10
  else if e = 114 then some 13
  else if e = 116 then some 9
  else none

/-- Parse the content of a JSON string literal after its opening quote,
returning the decoded bytes and the input remaining after the closing
quote.  Part of the byte-level model of the platform `JSON.parse` used at
crypto.ts line 153 (restricted to the shapes this component handles); the
fuel argument only bounds recursion and is always supplied no smaller than
the input length. -/
def parseJsonString : Nat → Bytes → Option (Bytes × Bytes)
  | 0, _ => none
  | _ + 1, [] => none
  | fuel + 1, b :: rest =>
    if b = 34 then some ([], rest)
    else if b = 92 then
      match rest with
      | [] => none
      | e :: rest2 =>
        if e = 117 then
          match rest2 with
          | h1 :: h2 :: h3 :: h4 :: rest3 =>
            match hexVal h1, hexVal h2, hexVal h3, hexVal h4 with
            | some v1, some v2, some v3, some v4 =>
              (parseJsonString fuel rest3).map
                (fun p => (utf8Encode (((v1 * 16 + v2) * 16 + v3) * 16 + v4) ++ p.1, p.2))
            | _, _, _, _ => none
          | _ => none
        else
          match decodeEscape e with
          | some c => (parseJsonString fuel rest2).map (fun p => (c :: p.1, p.2))
          | none => none
    else if b < 32 then none
    else (parseJsonString fuel rest).map (fun p => (b :: p.1, p.2))

/-- Parse one `key : value` member of a JSON object (both strings),
returning the pair and the remaining input. -/
def parseMember (input : Bytes) : Option ((Bytes × Bytes) × Bytes) :=
  match skipWs input with
  | [] => none
  | b :: s1 =>
    if b = 34 then
      match parseJsonString s1.length s1 with
      | none => none
      | some (k, r1) =>
        match skipWs r1 with
        | [] => none
        | c :: r2 =>
          if c = 58 then
            match skipWs r2 with
            | [] => none
            | d :: s2 =>
              if d = 34 then
                match parseJsonString s2.length s2 with
                | none => none
                | some (v, r3) => some ((k, v), r3)
              else none
          else none
    else none

/-- Parse a comma-separated sequence of object members; stops before the
first non-comma after a member (the caller checks the closing brace).
Rejects a trailing comma, as JSON does. -/
def parseMembers : Nat → Bytes → Option (List (Bytes × Bytes) × Bytes)
  | 0, _ => none
  | fuel + 1, input =>
    match parseMember input with
    | none => none
    | some (kv, rest) =>
      match skipWs rest with
      | [] => some ([kv], rest)
      | c :: r2 =>
        if c = 44 then
          match parseMembers fuel r2 with
          | some (ms, r3) => some (kv :: ms, r3)
          | none => none
        else some ([kv], rest)

/-- Byte-level model of the platform `JSON.parse` (crypto.ts line 153),
restricted to its use here: a flat object whose values are strings,
returned as the list of key / value pairs in source order.  Inputs outside
that shape (non-objects, non-string values) yield `none`, which
`decryptFile` surfaces as the platform parse error. -/
def jsonParse (input : Bytes) : Option (List (Bytes × Bytes)) :=
  match skipWs input with
  | [] => none
  | b :: rest =>
    if b = 123 then
      match skipWs rest with
      | [] => none
      | c :: r2 =>
        if c = 125 then (if skipWs r2 = [] then some [] else none)
        else
          match parseMembers (c :: r2).length (c :: r2) with
          | some (ms, r3) =>
            match skipWs r3 with
            | [] => none
            | d :: r4 =>
              if d = 125 then (if skipWs r4 = [] then some ms else none) else none
          | none => none
    else none

/-- Property access `metadata[key]` on the parsed object: as with
`JSON.parse`, a duplicated key keeps its last occurrence. -/
def getField (fields : List (Bytes × Bytes)) (key : Bytes) : Option Bytes :=
  fields.foldl (fun acc p => if p.1 = key then some p.2 else acc) none

/-- The JavaScript expression `v || d` for a string-or-absent value `v`:
both `undefined` and the empty string are falsy, so either yields the
fallback `d`. -/
def jsStringOr (v : Option Bytes) (d : Bytes) : Bytes :=
  match v with
  | none => d
  | some s => if s = [] then d else s

/-- The UTF-8 bytes of the fallback filename `archivo_descifrado`
(crypto.ts line 162). -/
def defaultFilename : Bytes :=
  [97, 114, 99, 104, 105, 118, 111, 95, 100, 101, 115, 99, 105, 102,
   114, 97, 100, 111]

/-- The UTF-8 bytes of the fallback MIME type `application/octet-stream`
(crypto.ts lines 161 and 163). -/
def defaultMimeType : Bytes :=
  [97, 112, 112, 108, 105, 99, 97, 116, 105, 111, 110, 47, 111, 99,
   116, 101, 116, 45, 115, 116, 114, 101, 97, 109]

/-- The single user-facing message thrown at crypto.ts line 139 for every
AEAD decryption failure. -/
def authErrorMessage : String := "Contraseña incorrecta o archivo corrupto"

/-- Model of the uncaught platform `RangeError` thrown when
`new Uint32Array` is built over a buffer of 1 to 3 bytes (crypto.ts
lines 147-149 with a decrypted plaintext shorter than 4 bytes). -/
def rangeErrorMessage : String := "RangeError"

/-- Model of the uncaught platform error thrown when `JSON.parse` rejects
its input (crypto.ts line 153). -/
def jsonErrorMessage : String := "SyntaxError"

/-- The observable output of a successful `decryptFile`: the bytes and
declared content type of the returned `Blob`, the restored filename and
the restored MIME type. -/
structure DecryptResult where
  fileContent : Bytes
  blobType : Bytes
  filename : Bytes
  mimeType : Bytes
deriving DecidableEq

deriving instance DecidableEq for Except

/-- `decryptFile` (crypto.ts lines 108-165).  `deriveKey` and
`aeadDecrypt` are the platform PBKDF2 and AES-GCM capabilities taken as
parameters; `aeadDecrypt` returns `none` where `crypto.subtle.decrypt`
rejects, which the source's `try` / `catch` maps to the single
`authErrorMessage` error (lines 131-140).  The container is split as
`slice(0, 16)`, `slice(16, 28)`, `slice(28)` with no length validation;
after a successful AEAD decryption the 4-byte little-endian metadata
length is read, the metadata record is parsed, and missing or empty
`name` / `type` fields fall back to the defaults (lines 144-164).  A
plaintext shorter than 4 bytes makes the `Uint32Array` construction (or,
when empty, the `JSON.parse` call) throw an uncaught platform error.  The
optional `onProgress` callback is not modelled here; it does not affect
the returned value. -/
def decryptFile {Key : Type} (deriveKey : Bytes → Bytes → Key)
    (aeadDecrypt : Key → Bytes → Bytes → Option Bytes)
    (data password : Bytes) : Except String DecryptResult :=
  let salt := data.take SALT_LENGTH
  let iv := (data.drop SALT_LENGTH).take IV_LENGTH
  let encryptedData := data.drop (SALT_LENGTH + IV_LENGTH)
  let key := deriveKey password salt
  match aeadDecrypt key iv encryptedData with
  | none => .error authErrorMessage
  | some decryptedBytes =>
    if decryptedBytes.length = 0 then .error jsonErrorMessage
    else if decryptedBytes.length < 4 then .error rangeErrorMessage
    else
      let metadataLength := readLe32 decryptedBytes
      let metadataBytes := (decryptedBytes.drop 4).take metadataLength
      match jsonParse metadataBytes with
      | none => .error jsonErrorMessage
      | some metadata =>
        let fileContent := decryptedBytes.drop (4 + metadataLength)
        let ty := jsStringOr (getField metadata typeKey) defaultMimeType
        .ok { fileContent := fileContent
              blobType := ty
              filename := jsStringOr (getField metadata nameKey) defaultFilename
              mimeType := ty }

/-- The unit array `sizes` from `formatFileSize` (crypto.ts line 173). -/
def sizes : List String := ["B", "KB", "MB", "GB"]

/-- `formatFileSize` (crypto.ts lines 170-176).  The index
`Math.floor(Math.log(bytes) / Math.log(1024))` is modelled by the exact
floor logarithm `Nat.log 1024`; an out-of-bounds `sizes[i]` is modelled as
`none` (in JavaScript the interpolation would render the word undefined).
The one-decimal float rendering of `bytes / 1024 ^ i` is approximated by
the integer quotient; the claims checked here depend only on the unit
lookup and on the zero case. -/
def formatFileSize (bytes : Nat) : Option String :=
  if bytes = 0 then some "0 B"
  else
    match sizes.get? (Nat.log 1024 bytes) with
    | some unit => some (toString (bytes / 1024 ^ Nat.log 1024 bytes) ++ " " ++ unit)
    | none => none

/-! ### A concrete key-derivation / AEAD instance

Used to exercise every parameterised theorem on closed inputs.  The
derived key is the password / salt pair itself; the cipher prepends a
16-byte tag block (so that, like AES-GCM, no ciphertext shorter than 16
bytes ever decrypts) followed by a length-prefixed encoding of the key, so
decryption under any other key fails. -/

/-- Injective encoding of a toy key into bytes. -/
def encKey (k : Bytes × Bytes) : Bytes := k.1.length :: (k.1 ++ k.2)

/-- The fixed 16-byte tag block of the toy cipher. -/
def toyPad : Bytes := List.replicate 16 0

/-- Toy key derivation: keeps the password and salt themselves. -/
def toyDeriveKey (password salt : Bytes) : Bytes × Bytes := (password, salt)

/-- Toy AEAD encryption. -/
def toyAeadEncrypt (k : Bytes × Bytes) (_nonce pt : Bytes) : Bytes :=
  toyPad ++ (encKey k).length :: (encKey k ++ pt)

/-- Toy AEAD decryption: succeeds exactly on outputs of `toyAeadEncrypt`
under the same key. -/
def toyAeadDecrypt (k : Bytes × Bytes) (_nonce ct : Bytes) : Option Bytes :=
  if ct.take 16 = toyPad ∧
      (ct.drop 16).take ((encKey k).length + 1) = (encKey k).length :: encKey k
  then some ((ct.drop 16).drop ((encKey k).length + 1))
  else none

/-! ### Helper lemmas -/

/-- A byte that is not JSON whitespace is kept by `skipWs`. -/
theorem skipWs_cons (b : Nat) (l : Bytes) (h : isJsonWs b = false) :
    skipWs (b :: l) = b :: l := by
  simp [skipWs, List.dropWhile_cons, h]

/-- `le32` always produces exactly four bytes. -/
theorem le32_length (n : Nat) : (le32 n).length = 4 := rfl

/-- `decryptFile`'s little-endian read recovers the value stored by
`encryptFile`'s little-endian write, modulo `2 ^ 32`. -/
theorem readLe32_le32 (n : Nat) (rest : Bytes) :
    readLe32 (le32 n ++ rest) = n % 4294967296 := by
  simp only [readLe32, le32, List.cons_append, List.nil_append, List.getD]
  simp only [List.get?_cons_zero, List.get?_cons_succ, Option.getD_some]
  omega

/-- `hexVal` inverts `hexDigit` on digit values. -/
theorem hexVal_hexDigit (d : Nat) (h : d < 16) : hexVal (hexDigit d) = some d := by
  unfold hexVal hexDigit
  by_cases h10 : d < 10
  · rw [if_pos h10, if_pos (by omega)]
    congr 1
    omega
  · rw [if_neg h10, if_neg (by omega), if_neg (by omega), if_pos (by omega)]
    congr 1
    omega

/-- Each escaped byte consumes one step of the string-content parser and
contributes exactly its original byte to the decoded output. -/
theorem parseJsonString_escapeByte (c f : Nat) (tail : Bytes) :
    parseJsonString (f + 1) (escapeByte c ++ tail)
      = (parseJsonString f tail).map (fun p => (c :: p.1, p.2)) := by
  unfold escapeByte
  split_ifs with h34 h92 h8 h9 h10 h12 h13 hlt
  · subst h34; simp [parseJsonString, decodeEscape]
  · subst h92; simp [parseJsonString, decodeEscape]
  · subst h8; simp [parseJsonString, decodeEscape]
  · subst h9; simp [parseJsonString, decodeEscape]
  · subst h10; simp [parseJsonString, decodeEscape]
  · subst h12; simp [parseJsonString, decodeEscape]
  · subst h13; simp [parseJsonString, decodeEscape]
  · have hdiv : c / 16 < 16 := by omega
    have hmod : c % 16 < 16 := by omega
    have h48 : hexVal 48 = some 0 := by norm_num [hexVal]
    simp only [List.cons_append, List.nil_append, parseJsonString]
    norm_num [h48, hexVal_hexDigit _ hdiv, hexVal_hexDigit _ hmod]
    have hc : (c / 16) * 16 + c % 16 = c := by omega
    rw [hc]
    have hlt128 : c < 128 := by omega
    simp [utf8Encode, hlt128]
  · have hge : ¬(c < 32) := hlt
    simp only [List.cons_append, List.nil_append, parseJsonString]
    rw [if_neg h34, if_neg h92, if_neg hge]
    simp

/-- The escaped content of a string has at least as many bytes as the
string. -/
theorem length_le_bodyEnc (s : Bytes) : s.length ≤ (bodyEnc s).length := by
  induction s with
  | nil => simp [bodyEnc]
  | cons c s ih =>
    have h1 : 1 ≤ (escapeByte c).length := by
      unfold escapeByte
      split_ifs <;> simp
    simp only [bodyEnc, List.flatMap_cons, List.length_append, List.length_cons] at *
    omega

/-- The string-content parser inverts the `JSON.stringify` escaping: given
enough fuel it decodes the escaped content up to the closing quote and
returns the remaining input. -/
theorem parseJsonString_bodyEnc (s : Bytes) : ∀ (fuel : Nat) (rest : Bytes),
    s.length + 1 ≤ fuel →
    parseJsonString fuel (bodyEnc s ++ 34 :: rest) = some (s, rest) := by
  induction s with
  | nil =>
    intro fuel rest hf
    obtain ⟨f, rfl⟩ : ∃ f, fuel = f + 1 := ⟨fuel - 1, by omega⟩
    simp [bodyEnc, parseJsonString]
  | cons c s ih =>
    intro fuel rest hf
    obtain ⟨f, rfl⟩ : ∃ f, fuel = f + 1 := ⟨fuel - 1, by omega⟩
    have hstep : bodyEnc (c :: s) ++ 34 :: rest
        = escapeByte c ++ (bodyEnc s ++ 34 :: rest) := by
      simp [bodyEnc]
    rw [hstep, parseJsonString_escapeByte, ih f rest (by simp at hf; omega)]
    rfl
/-- `skipWs` keeps a string literal (it starts with a quote). -/
theorem skipWs_quote (l : Bytes) : skipWs (34 :: l) = 34 :: l :=
  skipWs_cons _ _ (by decide)

/-- `parseMember` inverts the encoding of one `key : value` member. -/
theorem parseMember_encoded (k v rest : Bytes) :
    parseMember (jsonStringBytes k ++ 58 :: (jsonStringBytes v ++ rest))
      = some ((k, v), rest) := by
  have w58 : ∀ l : Bytes, skipWs (58 :: l) = 58 :: l := fun l => skipWs_cons _ _ (by decide)
  have h1 : jsonStringBytes k ++ 58 :: (jsonStringBytes v ++ rest)
      = 34 :: (bodyEnc k ++ 34 :: (58 :: (jsonStringBytes v ++ rest))) := by
    simp [jsonStringBytes]
  have hf1 : k.length + 1 ≤ (bodyEnc k ++ 34 :: (58 :: (jsonStringBytes v ++ rest))).length := by
    have := length_le_bodyEnc k
    simp only [List.length_append, List.length_cons]
    omega
  have hp1 := parseJsonString_bodyEnc k
    ((bodyEnc k ++ 34 :: (58 :: (jsonStringBytes v ++ rest))).length)
    (58 :: (jsonStringBytes v ++ rest)) hf1
  have h2 : jsonStringBytes v ++ rest = 34 :: (bodyEnc v ++ 34 :: rest) := by
    simp [jsonStringBytes]
  have hf2 : v.length + 1 ≤ (bodyEnc v ++ 34 :: rest).length := by
    have := length_le_bodyEnc v
    simp only [List.length_append, List.length_cons]
    omega
  have hp2 := parseJsonString_bodyEnc v ((bodyEnc v ++ 34 :: rest).length) rest hf2
  rw [h1]
  unfold parseMember
  rw [skipWs_quote]
  simp only [hp1]
  rw [w58]
  simp only [h2, skipWs_quote, hp2]
  simp

/-- `parseMembers` inverts the encoding of a two-member sequence followed
by the closing brace. -/
theorem parseMembers_pair (k1 v1 k2 v2 : Bytes) (fuel : Nat) (hf : 2 ≤ fuel) :
    parseMembers fuel
        (jsonStringBytes k1 ++ 58 :: (jsonStringBytes v1 ++
          44 :: (jsonStringBytes k2 ++ 58 :: (jsonStringBytes v2 ++ [125]))))
      = some ([(k1, v1), (k2, v2)], [125]) := by
  obtain ⟨f, rfl⟩ : ∃ f, fuel = f + 2 := ⟨fuel - 2, by omega⟩
  have w44 : ∀ l : Bytes, skipWs (44 :: l) = 44 :: l := fun l => skipWs_cons _ _ (by decide)
  have w125 : ∀ l : Bytes, skipWs (125 :: l) = 125 :: l := fun l => skipWs_cons _ _ (by decide)
  have e2 := parseMember_encoded k2 v2 ([125] : Bytes)
  have e1 := parseMember_encoded k1 v1
    (44 :: (jsonStringBytes k2 ++ 58 :: (jsonStringBytes v2 ++ [125])))
  show parseMembers (f + 1 + 1) _ = _
  rw [parseMembers, e1]
  simp only [w44]
  rw [parseMembers, e2]
  simp only [w125]
  simp

/-- `skipWs` keeps the encoded metadata and its trailing context (the
record starts with an opening brace). -/
theorem skipWs_brace (l : Bytes) : skipWs (123 :: l) = 123 :: l :=
  skipWs_cons _ _ (by decide)

/-- The `JSON.parse` model inverts the metadata encoder: the embedded
record always parses back to exactly a `name` field holding the filename
bytes and a `type` field holding the MIME type bytes. -/
theorem jsonParse_metadataJson (name ty : Bytes) :
    jsonParse (metadataJson name ty) = some [(nameKey, name), (typeKey, ty)] := by
  have hM : metadataJson name ty
      = 123 :: (jsonStringBytes nameKey ++ 58 :: (jsonStringBytes name ++
          44 :: (jsonStringBytes typeKey ++ 58 :: (jsonStringBytes ty ++ [125])))) := by
    simp [metadataJson]
  have hcons : jsonStringBytes nameKey ++ 58 :: (jsonStringBytes name ++
        44 :: (jsonStringBytes typeKey ++ 58 :: (jsonStringBytes ty ++ [125])))
      = 34 :: (bodyEnc nameKey ++ 34 :: (58 :: (jsonStringBytes name ++
          44 :: (jsonStringBytes typeKey ++ 58 :: (jsonStringBytes ty ++ [125]))))) := by
    simp [jsonStringBytes]
  have hlen : 2 ≤ (34 :: (bodyEnc nameKey ++ 34 :: (58 :: (jsonStringBytes name ++
      44 :: (jsonStringBytes typeKey ++ 58 :: (jsonStringBytes ty ++ [125])))))).length := by
    simp only [List.length_append, List.length_cons]
    omega
  have hmem := parseMembers_pair nameKey name typeKey ty _ hlen
  rw [hcons] at hmem
  unfold jsonParse
  rw [hM, skipWs_brace]
  simp only []
  rw [hcons, skipWs_quote]
  simp only [hmem]
  rw [show skipWs [125] = 125 :: [] from skipWs_cons _ _ (by decide)]
  simp [skipWs]
/-- Splitting the container produced by `encryptFile`: the first 16 bytes
are the salt. -/
theorem container_take_salt {Key : Type} (dk : Bytes → Bytes → Key)
    (enc : Key → Bytes → Bytes → Bytes) (salt iv f name ty pw : Bytes)
    (hs : salt.length = 16) :
    (encryptFile dk enc salt iv f name ty pw).container.take 16 = salt := by
  simp only [encryptFile]
  rw [List.append_assoc]
  exact List.take_left' hs

/-- Splitting the container produced by `encryptFile`: bytes 16 to 27 are
the nonce. -/
theorem container_take_iv {Key : Type} (dk : Bytes → Bytes → Key)
    (enc : Key → Bytes → Bytes → Bytes) (salt iv f name ty pw : Bytes)
    (hs : salt.length = 16) (hi : iv.length = 12) :
    ((encryptFile dk enc salt iv f name ty pw).container.drop 16).take 12 = iv := by
  simp only [encryptFile]
  rw [List.append_assoc, List.drop_left' hs]
  exact List.take_left' hi

/-- Splitting the container produced by `encryptFile`: from byte 28 on is
the ciphertext. -/
theorem container_drop_ct {Key : Type} (dk : Bytes → Bytes → Key)
    (enc : Key → Bytes → Bytes → Bytes) (salt iv f name ty pw : Bytes)
    (hs : salt.length = 16) (hi : iv.length = 12) :
    (encryptFile dk enc salt iv f name ty pw).container.drop 28
      = enc (dk pw salt) iv (dataToEncrypt f name ty) := by
  simp only [encryptFile]
  exact List.drop_left' (by simp [hs, hi])

/-- Field access on the two-member parsed metadata: the `name` field. -/
theorem getField_name (name ty : Bytes) :
    getField [(nameKey, name), (typeKey, ty)] nameKey = some name := by
  simp [getField, nameKey, typeKey]

/-- Field access on the two-member parsed metadata: the `type` field. -/
theorem getField_type (name ty : Bytes) :
    getField [(nameKey, name), (typeKey, ty)] typeKey = some ty := by
  simp [getField, nameKey, typeKey]

/-- Core round-trip fact: decrypting an `encryptFile` container with the
same password, under any AEAD satisfying the decrypt-of-encrypt equation,
recovers the file bytes exactly and the name / type fields up to the
falsy-string fallbacks applied at crypto.ts lines 160-164. -/
theorem decryptFile_encryptFile {Key : Type} (dk : Bytes → Bytes → Key)
    (enc : Key → Bytes → Bytes → Bytes) (dec : Key → Bytes → Bytes → Option Bytes)
    (hdec : ∀ k n pt, dec k n (enc k n pt) = some pt)
    (salt iv fileBytes name ty password : Bytes)
    (hs : salt.length = 16) (hi : iv.length = 12)
    (hm : (metadataJson name ty).length < 4294967296) :
    decryptFile dk dec (encryptFile dk enc salt iv fileBytes name ty password).container password
      = .ok { fileContent := fileBytes
              blobType := if ty = [] then defaultMimeType else ty
              filename := if name = [] then defaultFilename else name
              mimeType := if ty = [] then defaultMimeType else ty } := by
  have hpt : dataToEncrypt fileBytes name ty
      = le32 (metadataJson name ty).length ++ (metadataJson name ty ++ fileBytes) := rfl
  have hlen0 : ¬((dataToEncrypt fileBytes name ty).length = 0) := by
    simp [dataToEncrypt, le32]
  have hlen4 : ¬((dataToEncrypt fileBytes name ty).length < 4) := by
    simp [dataToEncrypt, le32]
  have hread : readLe32 (dataToEncrypt fileBytes name ty) = (metadataJson name ty).length := by
    rw [hpt, readLe32_le32]
    exact Nat.mod_eq_of_lt hm
  have h4 : (le32 (metadataJson name ty).length).length = 4 := rfl
  have hmeta : ((dataToEncrypt fileBytes name ty).drop 4).take (metadataJson name ty).length
      = metadataJson name ty := by
    rw [hpt, List.drop_left' h4]
    exact List.take_left' rfl
  have h4m : (le32 (metadataJson name ty).length ++ metadataJson name ty).length
      = 4 + (metadataJson name ty).length := by simp [le32]; omega
  have hassoc : dataToEncrypt fileBytes name ty
      = (le32 (metadataJson name ty).length ++ metadataJson name ty) ++ fileBytes := rfl
  have hfile : (dataToEncrypt fileBytes name ty).drop (4 + (metadataJson name ty).length)
      = fileBytes := by
    rw [hassoc, List.drop_left' h4m]
  simp only [decryptFile, SALT_LENGTH, IV_LENGTH]
  rw [container_take_salt dk enc salt iv fileBytes name ty password hs,
    container_take_iv dk enc salt iv fileBytes name ty password hs hi,
    container_drop_ct dk enc salt iv fileBytes name ty password hs hi,
    hdec]
  simp only [hread, hmeta, hfile, jsonParse_metadataJson, hlen0, hlen4,
    getField_name, getField_type, if_false, jsStringOr]
/-- The toy key encoding is injective. -/
theorem encKey_injective {k k' : Bytes × Bytes} (h : encKey k = encKey k') : k = k' := by
  obtain ⟨a, b⟩ := k
  obtain ⟨c, d⟩ := k'
  simp only [encKey] at h
  injection h with h1 h2
  obtain ⟨ha, hb⟩ := List.append_inj h2 h1
  simp [ha, hb]

/-- The toy cipher decrypts its own output under the same key. -/
theorem toy_roundtrip (k : Bytes × Bytes) (n pt : Bytes) :
    toyAeadDecrypt k n (toyAeadEncrypt k n pt) = some pt := by
  have hpad : (toyPad : Bytes).length = 16 := by simp [toyPad]
  unfold toyAeadDecrypt toyAeadEncrypt
  rw [List.take_left' hpad, List.drop_left' hpad, if_pos]
  · rw [List.drop_succ_cons]
    exact congrArg some (List.drop_left' rfl)
  · refine ⟨rfl, ?_⟩
    rw [List.take_succ_cons, List.take_left' rfl]

/-- The toy cipher rejects its output under any other key. -/
theorem toy_auth (k k' : Bytes × Bytes) (n pt : Bytes) (hne : k ≠ k') :
    toyAeadDecrypt k' n (toyAeadEncrypt k n pt) = none := by
  have hpad : (toyPad : Bytes).length = 16 := by simp [toyPad]
  unfold toyAeadDecrypt toyAeadEncrypt
  rw [if_neg]
  intro hcond
  obtain ⟨-, h2⟩ := hcond
  rw [List.drop_left' hpad, List.take_succ_cons] at h2
  injection h2 with hL he
  rw [← hL, List.take_left' rfl] at he
  exact hne (encKey_injective he)

/-- Like AES-GCM, the toy cipher rejects every ciphertext shorter than its
16-byte tag block. -/
theorem toy_short (k : Bytes × Bytes) (n ct : Bytes) (h : ct.length < 16) :
    toyAeadDecrypt k n ct = none := by
  unfold toyAeadDecrypt
  rw [if_neg]
  intro hcond
  obtain ⟨h1, -⟩ := hcond
  have := congrArg List.length h1
  rw [List.length_take] at this
  simp [toyPad] at this
  omega

/-- The toy key derivation gives different keys to different passwords
under the same salt. -/
theorem toyDeriveKey_injective (s p1 p2 : Bytes) (h : p1 ≠ p2) :
    toyDeriveKey p1 s ≠ toyDeriveKey p2 s := by
  intro hcontra
  exact h (congrArg Prod.fst hcontra)

/-- Fixed concrete salt used by the closed-input witnesses. -/
def cSalt : Bytes := List.replicate 16 1

/-- Fixed concrete nonce used by the closed-input witnesses. -/
def cIv : Bytes := List.replicate 12 2
/-! ### Claims -/

/-- C1, counterexample: the claimed round-trip fails as stated.  Encrypting
a file whose filename is the empty string and decrypting with the correct
password does not return the original (empty) filename: it returns the
fallback `archivo_descifrado`, because `metadata.name || fallback` treats
the empty string as falsy (crypto.ts line 162). -/
theorem c1_roundtrip_counterexample :
    decryptFile toyDeriveKey toyAeadDecrypt
        (encryptFile toyDeriveKey toyAeadEncrypt cSalt cIv [65] [] [116] [112]).container [112]
      = .ok { fileContent := [65], blobType := [116]
              filename := defaultFilename, mimeType := [116] }
    ∧ defaultFilename ≠ ([] : Bytes) := by
  constructor
  · decide
  · decide

/-- C1, amended: for every file, every password of length at least 1, and
every non-empty filename and non-empty MIME type whose metadata record is
shorter than `2 ^ 32` bytes (the 4-byte length prefix wraps otherwise),
decrypting the container produced by `encryptFile` with the same password
returns exactly the original bytes, filename and MIME type.  Stated for
any AEAD satisfying the decrypt-of-encrypt equation. -/
theorem c1_roundtrip {Key : Type} (dk : Bytes → Bytes → Key)
    (enc : Key → Bytes → Bytes → Bytes) (dec : Key → Bytes → Bytes → Option Bytes)
    (hdec : ∀ k n pt, dec k n (enc k n pt) = some pt)
    (salt iv fileBytes name ty password : Bytes)
    (hs : salt.length = 16) (hi : iv.length = 12)
    (_hp : 1 ≤ password.length) (hname : name ≠ []) (hty : ty ≠ [])
    (hm : (metadataJson name ty).length < 4294967296) :
    decryptFile dk dec (encryptFile dk enc salt iv fileBytes name ty password).container password
      = .ok { fileContent := fileBytes, blobType := ty
              filename := name, mimeType := ty } := by
  rw [decryptFile_encryptFile dk enc dec hdec salt iv fileBytes name ty password hs hi hm]
  simp [hname, hty]

/-- C1 witness: the amended round-trip at a closed input. -/
theorem c1_roundtrip_witness :
    cSalt.length = 16 ∧ cIv.length = 12 ∧ 1 ≤ ([112] : Bytes).length
    ∧ ([97] : Bytes) ≠ [] ∧ ([116] : Bytes) ≠ []
    ∧ (metadataJson [97] [116]).length < 4294967296
    ∧ decryptFile toyDeriveKey toyAeadDecrypt
        (encryptFile toyDeriveKey toyAeadEncrypt cSalt cIv [65, 66] [97] [116] [112]).container
        [112]
      = .ok { fileContent := [65, 66], blobType := [116]
              filename := [97], mimeType := [116] } :=
  ⟨by decide, by decide, by decide, by decide, by decide, by decide,
    c1_roundtrip toyDeriveKey toyAeadEncrypt toyAeadDecrypt toy_roundtrip cSalt cIv
      [65, 66] [97] [116] [112] (by decide) (by decide) (by decide) (by decide)
      (by decide) (by decide)⟩

/-- C2, counterexample: the code defines no distinct MalformedContainer
error kind.  A 0-byte input (shorter than 28 bytes) fails with exactly the
same single error value as a wrong-password decryption of a well-formed
container, so the claimed distinct error kind does not exist. -/
theorem c2_malformed_counterexample :
    decryptFile toyDeriveKey toyAeadDecrypt [] [112] = .error authErrorMessage
    ∧ decryptFile toyDeriveKey toyAeadDecrypt
        (encryptFile toyDeriveKey toyAeadEncrypt cSalt cIv [65] [97] [116] [112]).container [113]
      = .error authErrorMessage := by
  constructor
  · decide
  · decide

/-- C2, amended: `decryptFile` performs no length validation at all.  For
every input shorter than 28 bytes it still fails (the remaining ciphertext
is empty and AEAD decryption rejects anything shorter than the 16-byte
authentication tag), but with the same single error used for every
authentication failure, not with a distinct MalformedContainer kind; an
inner length-prefix inconsistent with the buffer length is likewise never
checked and surfaces, after a successful AEAD decryption, as an uncaught
metadata parse error. -/
theorem c2_short_input {Key : Type} (dk : Bytes → Bytes → Key)
    (dec : Key → Bytes → Bytes → Option Bytes)
    (hshort : ∀ k n ct, ct.length < 16 → dec k n ct = none)
    (data password : Bytes) (hdata : data.length < 28) :
    decryptFile dk dec data password = .error authErrorMessage := by
  have h : (data.drop (SALT_LENGTH + IV_LENGTH)).length < 16 := by
    simp only [SALT_LENGTH, IV_LENGTH, List.length_drop]
    omega
  simp only [decryptFile]
  rw [hshort _ _ _ h]

/-- C2 witness: the amended behaviour at a closed 3-byte input. -/
theorem c2_short_input_witness :
    ([1, 2, 3] : Bytes).length < 28
    ∧ decryptFile toyDeriveKey toyAeadDecrypt [1, 2, 3] [112] = .error authErrorMessage :=
  ⟨by decide, c2_short_input toyDeriveKey toyAeadDecrypt toy_short [1, 2, 3] [112] (by decide)⟩

/-- C3: decrypting a container with a password different from the one it
was produced with fails with the single authentication-failure error and
returns no plaintext.  Stated for any key derivation that separates
distinct passwords and any AEAD that rejects ciphertexts under a wrong
key (the standard idealisation of PBKDF2 and AES-GCM). -/
theorem c3_wrong_password {Key : Type} (dk : Bytes → Bytes → Key)
    (enc : Key → Bytes → Bytes → Bytes) (dec : Key → Bytes → Bytes → Option Bytes)
    (hauth : ∀ k k' n pt, k ≠ k' → dec k' n (enc k n pt) = none)
    (hdk : ∀ s p1 p2 : Bytes, p1 ≠ p2 → dk p1 s ≠ dk p2 s)
    (salt iv fileBytes name ty p1 p2 : Bytes)
    (hs : salt.length = 16) (hi : iv.length = 12) (hne : p1 ≠ p2) :
    decryptFile dk dec (encryptFile dk enc salt iv fileBytes name ty p1).container p2
      = .error authErrorMessage := by
  simp only [decryptFile, SALT_LENGTH, IV_LENGTH]
  rw [container_take_salt dk enc salt iv fileBytes name ty p1 hs,
    container_take_iv dk enc salt iv fileBytes name ty p1 hs hi,
    container_drop_ct dk enc salt iv fileBytes name ty p1 hs hi,
    hauth _ _ _ _ (hdk salt p1 p2 hne)]

/-- C3 witness: wrong password at a closed input. -/
theorem c3_wrong_password_witness :
    ([112] : Bytes) ≠ [113]
    ∧ decryptFile toyDeriveKey toyAeadDecrypt
        (encryptFile toyDeriveKey toyAeadEncrypt cSalt cIv [65] [97] [116] [112]).container [113]
      = .error authErrorMessage :=
  ⟨by decide,
    c3_wrong_password toyDeriveKey toyAeadEncrypt toyAeadDecrypt toy_auth
      toyDeriveKey_injective cSalt cIv [65] [97] [116] [112] [113]
      (by decide) (by decide) (by decide)⟩

/-- C4: every AEAD decryption failure — wrong password, tampered or
corrupted ciphertext, truncated ciphertext — surfaces through the single
`catch` at crypto.ts lines 138-140 as the identical error kind and message;
an observer of the errors cannot distinguish the causes. -/
theorem c4_indistinguishable_errors {Key : Type} (dk : Bytes → Bytes → Key)
    (dec : Key → Bytes → Bytes → Option Bytes) (data1 data2 p1 p2 : Bytes)
    (h1 : dec (dk p1 (data1.take SALT_LENGTH)) ((data1.drop SALT_LENGTH).take IV_LENGTH)
      (data1.drop (SALT_LENGTH + IV_LENGTH)) = none)
    (h2 : dec (dk p2 (data2.take SALT_LENGTH)) ((data2.drop SALT_LENGTH).take IV_LENGTH)
      (data2.drop (SALT_LENGTH + IV_LENGTH)) = none) :
    decryptFile dk dec data1 p1 = .error authErrorMessage
    ∧ decryptFile dk dec data2 p2 = .error authErrorMessage
    ∧ decryptFile dk dec data1 p1 = decryptFile dk dec data2 p2 := by
  have e1 : decryptFile dk dec data1 p1 = .error authErrorMessage := by
    simp only [decryptFile]
    rw [h1]
  have e2 : decryptFile dk dec data2 p2 = .error authErrorMessage := by
    simp only [decryptFile]
    rw [h2]
  exact ⟨e1, e2, by rw [e1, e2]⟩

/-- C4 witness: a wrong-password failure and a corrupted-ciphertext
failure, at closed inputs, produce the same error. -/
theorem c4_indistinguishable_errors_witness :
    toyAeadDecrypt
        (toyDeriveKey [113]
          ((encryptFile toyDeriveKey toyAeadEncrypt cSalt cIv [65] [97] [116] [112]).container.take
            SALT_LENGTH))
        (((encryptFile toyDeriveKey toyAeadEncrypt cSalt cIv [65] [97] [116]
            [112]).container.drop SALT_LENGTH).take IV_LENGTH)
        ((encryptFile toyDeriveKey toyAeadEncrypt cSalt cIv [65] [97] [116]
            [112]).container.drop (SALT_LENGTH + IV_LENGTH)) = none
    ∧ toyAeadDecrypt (toyDeriveKey [112] ((cSalt ++ cIv ++ List.replicate 16 1).take SALT_LENGTH))
        (((cSalt ++ cIv ++ List.replicate 16 1).drop SALT_LENGTH).take IV_LENGTH)
        ((cSalt ++ cIv ++ List.replicate 16 1).drop (SALT_LENGTH + IV_LENGTH)) = none
    ∧ decryptFile toyDeriveKey toyAeadDecrypt
        (encryptFile toyDeriveKey toyAeadEncrypt cSalt cIv [65] [97] [116] [112]).container [113]
      = decryptFile toyDeriveKey toyAeadDecrypt (cSalt ++ cIv ++ List.replicate 16 1) [112] :=
  ⟨by decide, by decide,
    (c4_indistinguishable_errors toyDeriveKey toyAeadDecrypt
      (encryptFile toyDeriveKey toyAeadEncrypt cSalt cIv [65] [97] [116] [112]).container
      (cSalt ++ cIv ++ List.replicate 16 1) [113] [112] (by decide) (by decide)).2.2⟩
/-- C5: for every successful encryption the container is exactly
`salt || nonce || ciphertext` — no other fields — and its length is the
fixed 28-byte overhead plus the ciphertext length. -/
theorem c5_container_layout {Key : Type} (dk : Bytes → Bytes → Key)
    (enc : Key → Bytes → Bytes → Bytes) (salt iv fileBytes name ty pw : Bytes)
    (hs : salt.length = 16) (hi : iv.length = 12) :
    (encryptFile dk enc salt iv fileBytes name ty pw).container
      = salt ++ iv ++ enc (dk pw salt) iv (dataToEncrypt fileBytes name ty)
    ∧ (encryptFile dk enc salt iv fileBytes name ty pw).container.length
      = 16 + 12 + (enc (dk pw salt) iv (dataToEncrypt fileBytes name ty)).length := by
  refine ⟨rfl, ?_⟩
  simp only [encryptFile, List.length_append, hs, hi]

/-- C5 witness: the layout at a closed input. -/
theorem c5_container_layout_witness :
    cSalt.length = 16 ∧ cIv.length = 12
    ∧ (encryptFile toyDeriveKey toyAeadEncrypt cSalt cIv [65] [97] [116] [112]).container
      = cSalt ++ cIv ++ toyAeadEncrypt (toyDeriveKey [112] cSalt) cIv (dataToEncrypt [65] [97] [116])
    ∧ (encryptFile toyDeriveKey toyAeadEncrypt cSalt cIv [65] [97] [116] [112]).container.length
      = 16 + 12
        + (toyAeadEncrypt (toyDeriveKey [112] cSalt) cIv (dataToEncrypt [65] [97] [116])).length :=
  ⟨by decide, by decide,
    (c5_container_layout toyDeriveKey toyAeadEncrypt cSalt cIv [65] [97] [116] [112]
      (by decide) (by decide)).1,
    (c5_container_layout toyDeriveKey toyAeadEncrypt cSalt cIv [65] [97] [116] [112]
      (by decide) (by decide)).2⟩

/-- C6: the inner plaintext is the 4-byte little-endian length prefix,
then the metadata record, then the raw file bytes, and `decryptFile`'s
little-endian read of that prefix recovers exactly the metadata record's
byte length (the prefix does not count itself). -/
theorem c6_inner_plaintext_layout (fileBytes name ty : Bytes)
    (hm : (metadataJson name ty).length < 4294967296) :
    dataToEncrypt fileBytes name ty
      = le32 (metadataJson name ty).length ++ metadataJson name ty ++ fileBytes
    ∧ (le32 (metadataJson name ty).length).length = 4
    ∧ readLe32 (dataToEncrypt fileBytes name ty) = (metadataJson name ty).length := by
  refine ⟨rfl, rfl, ?_⟩
  have h : dataToEncrypt fileBytes name ty
      = le32 (metadataJson name ty).length ++ (metadataJson name ty ++ fileBytes) := rfl
  rw [h, readLe32_le32]
  exact Nat.mod_eq_of_lt hm

/-- C6 witness: the layout and prefix read at a closed input. -/
theorem c6_inner_plaintext_layout_witness :
    (metadataJson [97] [116]).length < 4294967296
    ∧ readLe32 (dataToEncrypt [65] [97] [116]) = (metadataJson [97] [116]).length :=
  ⟨by decide, (c6_inner_plaintext_layout [65] [97] [116] (by decide)).2.2⟩

/-- C7: when AEAD decryption succeeds and the embedded metadata record
parses but lacks the `name` field, `decryptFile` still succeeds and
returns the fixed placeholder filename; when it lacks the `type` field it
returns `application/octet-stream`.  Absence of either field is never a
format error. -/
theorem c7_missing_metadata_defaults {Key : Type} (dk : Bytes → Bytes → Key)
    (dec : Key → Bytes → Bytes → Option Bytes) (data pw pt : Bytes)
    (fields : List (Bytes × Bytes))
    (hdec : dec (dk pw (data.take SALT_LENGTH)) ((data.drop SALT_LENGTH).take IV_LENGTH)
      (data.drop (SALT_LENGTH + IV_LENGTH)) = some pt)
    (hlen : 4 ≤ pt.length)
    (hparse : jsonParse ((pt.drop 4).take (readLe32 pt)) = some fields) :
    (getField fields nameKey = none →
      decryptFile dk dec data pw
        = .ok { fileContent := pt.drop (4 + readLe32 pt)
                blobType := jsStringOr (getField fields typeKey) defaultMimeType
                filename := defaultFilename
                mimeType := jsStringOr (getField fields typeKey) defaultMimeType })
    ∧ (getField fields typeKey = none →
      decryptFile dk dec data pw
        = .ok { fileContent := pt.drop (4 + readLe32 pt)
                blobType := defaultMimeType
                filename := jsStringOr (getField fields nameKey) defaultFilename
                mimeType := defaultMimeType }) := by
  have hcore : decryptFile dk dec data pw
      = .ok { fileContent := pt.drop (4 + readLe32 pt)
              blobType := jsStringOr (getField fields typeKey) defaultMimeType
              filename := jsStringOr (getField fields nameKey) defaultFilename
              mimeType := jsStringOr (getField fields typeKey) defaultMimeType } := by
    have h0 : ¬(pt.length = 0) := by omega
    have h4 : ¬(pt.length < 4) := by omega
    simp only [decryptFile]
    rw [hdec]
    simp [h0, h4, hparse]
  constructor
  · intro hname
    rw [hcore]
    simp [jsStringOr, hname]
  · intro hty
    rw [hcore]
    simp [jsStringOr, hty]

/-- C7 witness: a closed container whose metadata is exactly a `type`
field (no `name`); decryption succeeds with the placeholder filename. -/
theorem c7_missing_metadata_defaults_witness :
    toyAeadDecrypt
        (toyDeriveKey [112]
          ((cSalt ++ cIv ++ toyAeadEncrypt (toyDeriveKey [112] cSalt) cIv
            (le32 12 ++ [123, 34, 116, 121, 112, 101, 34, 58, 34, 97, 34, 125]
              ++ [7, 8])).take SALT_LENGTH))
        (((cSalt ++ cIv ++ toyAeadEncrypt (toyDeriveKey [112] cSalt) cIv
            (le32 12 ++ [123, 34, 116, 121, 112, 101, 34, 58, 34, 97, 34, 125]
              ++ [7, 8])).drop SALT_LENGTH).take IV_LENGTH)
        ((cSalt ++ cIv ++ toyAeadEncrypt (toyDeriveKey [112] cSalt) cIv
            (le32 12 ++ [123, 34, 116, 121, 112, 101, 34, 58, 34, 97, 34, 125]
              ++ [7, 8])).drop (SALT_LENGTH + IV_LENGTH))
      = some (le32 12 ++ [123, 34, 116, 121, 112, 101, 34, 58, 34, 97, 34, 125] ++ [7, 8])
    ∧ decryptFile toyDeriveKey toyAeadDecrypt
        (cSalt ++ cIv ++ toyAeadEncrypt (toyDeriveKey [112] cSalt) cIv
          (le32 12 ++ [123, 34, 116, 121, 112, 101, 34, 58, 34, 97, 34, 125] ++ [7, 8])) [112]
      = .ok { fileContent := [7, 8], blobType := [97]
              filename := defaultFilename, mimeType := [97] } :=
  ⟨by decide, by
    rw [(c7_missing_metadata_defaults toyDeriveKey toyAeadDecrypt
      (cSalt ++ cIv ++ toyAeadEncrypt (toyDeriveKey [112] cSalt) cIv
        (le32 12 ++ [123, 34, 116, 121, 112, 101, 34, 58, 34, 97, 34, 125] ++ [7, 8])) [112]
      (le32 12 ++ [123, 34, 116, 121, 112, 101, 34, 58, 34, 97, 34, 125] ++ [7, 8])
      [(typeKey, [97])] (by decide) (by decide) (by decide)).1 (by decide)]
    decide⟩

/-- C8: the sequence of values `encryptFile` passes to a supplied progress
callback is monotonically non-decreasing and ends in 100 at successful
completion (every reported value is a natural number, and encryption in
this model always completes). -/
theorem c8_progress_monotone {Key : Type} (dk : Bytes → Bytes → Key)
    (enc : Key → Bytes → Bytes → Bytes) (salt iv fileBytes name ty pw : Bytes) :
    List.Chain' (· ≤ ·) (encryptFile dk enc salt iv fileBytes name ty pw).progress
    ∧ (encryptFile dk enc salt iv fileBytes name ty pw).progress.getLast? = some 100 := by
  constructor
  · simp only [encryptFile]
    norm_num [List.chain'_cons]
  · simp only [encryptFile]
    decide

/-- C9: empty-string metadata fields are treated exactly like absent ones:
encrypting with an empty filename (respectively empty MIME type) and
decrypting with the correct password succeeds but yields the fallback
`archivo_descifrado` (respectively `application/octet-stream`) instead of
the empty string stored in the metadata record. -/
theorem c9_empty_metadata_fallbacks {Key : Type} (dk : Bytes → Bytes → Key)
    (enc : Key → Bytes → Bytes → Bytes) (dec : Key → Bytes → Bytes → Option Bytes)
    (hdec : ∀ k n pt, dec k n (enc k n pt) = some pt)
    (salt iv fileBytes name ty pw : Bytes)
    (hs : salt.length = 16) (hi : iv.length = 12) :
    (ty ≠ [] → (metadataJson [] ty).length < 4294967296 →
      decryptFile dk dec (encryptFile dk enc salt iv fileBytes [] ty pw).container pw
        = .ok { fileContent := fileBytes, blobType := ty
                filename := defaultFilename, mimeType := ty })
    ∧ (name ≠ [] → (metadataJson name []).length < 4294967296 →
      decryptFile dk dec (encryptFile dk enc salt iv fileBytes name [] pw).container pw
        = .ok { fileContent := fileBytes, blobType := defaultMimeType
                filename := name, mimeType := defaultMimeType }) := by
  constructor
  · intro hty hm
    rw [decryptFile_encryptFile dk enc dec hdec salt iv fileBytes [] ty pw hs hi hm]
    simp [hty]
  · intro hname hm
    rw [decryptFile_encryptFile dk enc dec hdec salt iv fileBytes name [] pw hs hi hm]
    simp [hname]

/-- C9 witness: both fallbacks at closed inputs. -/
theorem c9_empty_metadata_fallbacks_witness :
    decryptFile toyDeriveKey toyAeadDecrypt
        (encryptFile toyDeriveKey toyAeadEncrypt cSalt cIv [65] [] [116] [112]).container [112]
      = .ok { fileContent := [65], blobType := [116]
              filename := defaultFilename, mimeType := [116] }
    ∧ decryptFile toyDeriveKey toyAeadDecrypt
        (encryptFile toyDeriveKey toyAeadEncrypt cSalt cIv [65] [97] [] [112]).container [112]
      = .ok { fileContent := [65], blobType := defaultMimeType
              filename := [97], mimeType := defaultMimeType } :=
  ⟨(c9_empty_metadata_fallbacks toyDeriveKey toyAeadEncrypt toyAeadDecrypt toy_roundtrip
      cSalt cIv [65] [97] [116] [112] (by decide) (by decide)).1 (by decide) (by decide),
   (c9_empty_metadata_fallbacks toyDeriveKey toyAeadEncrypt toyAeadDecrypt toy_roundtrip
      cSalt cIv [65] [97] [116] [112] (by decide) (by decide)).2 (by decide) (by decide)⟩

/-- C10: for every byte count of at least `1024 ^ 4` the unit index
computed by `formatFileSize` is at least 4 and the lookup in the
four-element unit array is out of bounds (modelled as `none`); for counts
in `[1, 1024 ^ 4)` the index stays within bounds; and
`formatFileSize 0 = some "0 B"`. -/
theorem c10_format_file_size_bounds :
    (∀ b : Nat, 1024 ^ 4 ≤ b → 4 ≤ Nat.log 1024 b ∧ formatFileSize b = none)
    ∧ (∀ b : Nat, 1 ≤ b → b < 1024 ^ 4 →
        Nat.log 1024 b < 4 ∧ (formatFileSize b).isSome = true)
    ∧ formatFileSize 0 = some "0 B" := by
  refine ⟨?_, ?_, rfl⟩
  · intro b hb
    have hb0 : b ≠ 0 := by
      have : (0 : Nat) < 1024 ^ 4 := by norm_num
      omega
    have hlog : 4 ≤ Nat.log 1024 b := (Nat.pow_le_iff_le_log (by norm_num) hb0).1 hb
    refine ⟨hlog, ?_⟩
    unfold formatFileSize
    rw [if_neg hb0]
    have hnone : sizes.get? (Nat.log 1024 b) = none := by
      rw [List.get?_eq_none]
      simpa [sizes] using hlog
    rw [hnone]
  · intro b hb1 hb2
    have hb0 : b ≠ 0 := by omega
    have hlog : Nat.log 1024 b < 4 := (Nat.lt_pow_iff_log_lt (by norm_num) hb0).1 hb2
    refine ⟨hlog, ?_⟩
    unfold formatFileSize
    rw [if_neg hb0]
    have hlt : Nat.log 1024 b < sizes.length := by simpa [sizes] using hlog
    rw [List.get?_eq_get hlt]
    simp

/-- C10 witness: the boundary count `1024 ^ 4` is out of bounds, a small
count is in bounds, and zero formats as the literal. -/
theorem c10_format_file_size_bounds_witness :
    (1024 ^ 4 ≤ 1024 ^ 4 ∧ formatFileSize (1024 ^ 4) = none)
    ∧ (1 ≤ 5 ∧ 5 < 1024 ^ 4 ∧ (formatFileSize 5).isSome = true) :=
  ⟨⟨le_refl _, (c10_format_file_size_bounds.1 (1024 ^ 4) (le_refl _)).2⟩,
   ⟨by norm_num, by norm_num,
    (c10_format_file_size_bounds.2.1 5 (by norm_num) (by norm_num)).2⟩⟩
